import Mathlib

/-!
# shareable-seed: the shareable-code codec and the split/combine orchestration

A shallow embedding of `src/index.js`.

* JavaScript strings are lists of characters (`Str`).
* A call that can throw returns `Except Err _`; `null` is `none`.
* The third-party packages with a fixed, published behaviour that the code
  relies on (`lodash`'s `_.get` and `_.find`, `zero-fill`) are written out.
* The third-party primitives whose internals are out of scope (SHA-256, the
  BIP-39 converter, the secret-sharing library) are fields of `Env`.
* The files under `lib/` are not among the sources.  The two code tables and
  the shape validators the specification does not describe are fields of
  `Env`; the helpers the specification does describe are modelled from it.
-/

namespace ShareableSeed

/-- A JavaScript string, as its sequence of characters. -/
abbrev Str := List Char

/-- A BIP-39 wordlist: an array of words. -/
abbrev Wordlist := List Str

/-- A share, as produced by the secret-sharing library (a string). -/
abbrev Share := Str

/-- The errors the functions of `index.js` can raise.  The first group are the
messages of `lib/errors`; `library` is any error thrown from inside a
third-party package. -/
inductive Err where
  | invalidMnemonic
  | invalidVersionName
  | invalidWordlistName
  | invalidWordlistCode
  | invalidShareCount
  | invalidThreshold
  | invalidShareList
  | invalidShareableCode
  | checksumMismatch
  | invalidEntropyLength
  | library (tag : Nat)
  deriving DecidableEq, Repr

deriving instance DecidableEq for Except

/-! ## Constants of `index.js` (lines 13-15) -/

def ENTROPY_LENGTH_PADDED_HEX : Nat := 2
def ENTROPY_PADDED_LENGTH : Nat := 64
def CHECKSUM_HEX_LENGTH : Nat := 8

/-! ## JavaScript and third-party helpers with a fixed behaviour -/

/-- The names of the properties every object inherits from `Object.prototype`,
which `object[key]`, hence `_.get`, reads when the object has no property of
its own under that name. -/
def objectPrototypeKeys : List Str :=
  ["constructor".toList, "toString".toList, "toLocaleString".toList, "valueOf".toList,
    "hasOwnProperty".toList, "isPrototypeOf".toList, "propertyIsEnumerable".toList,
    "__proto__".toList, "__defineGetter__".toList, "__defineSetter__".toList,
    "__lookupGetter__".toList, "__lookupSetter__".toList]

/-- A plain key: not the name of an inherited property, and without `.` or
`[`, which make lodash read the key as a path. -/
def plainKey (key : Str) : Bool :=
  !objectPrototypeKeys.contains key && !key.contains '.' && !key.contains '['

/-- String conversion of a possibly `undefined` string value, as performed by
`+` on strings and by lodash's `toKey`: `undefined` becomes `"undefined"`. -/
def jsToString : Option Str → Str
  | some s => s
  | none => "undefined".toList

/-- The expression `_.get(object, key)` of lodash on a flat table, for a key
that may itself be `undefined` (lodash then reads the property named
`"undefined"`).  A missing property gives `undefined`.  The table holds the
own properties of the object: the lookup is that of lodash for the keys of
the table and for every other key that is a plain key (`plainKey`); under
the name of a property every object inherits, or under a path, lodash reads
something else. -/
def lodashGet {β : Type} (object : List (Str × β)) (key : Option Str) : Option β :=
  (object.find? fun kv => kv.1 == jsToString key).map Prod.snd

/-- The expression `_.get(object, key, defaultValue)` of lodash: the default
replaces an `undefined` result.  As for `lodashGet`, the keys meant are the
keys of the table and the plain keys. -/
def lodashGetD (object : List (Str × Str)) (key : Str) (defaultValue : Str) : Str :=
  (lodashGet object (some key)).getD defaultValue

/-- The expression `_.find(object, predicate)` of lodash on an object: the
properties are visited in order, the predicate receives `(value, key)`, and
the first VALUE for which it holds is returned (`undefined` when there is
none).  The key is what `_.findKey` would return. -/
def lodashFind (object : List (Str × Str)) (predicate : Str → Str → Bool) : Option Str :=
  (object.find? fun kv => predicate kv.2 kv.1).map Prod.snd

/-- The call `zeroFill(width, number)` of the package `zero-fill`, on a string
without a dot: `width - number.length` pad characters `'0'` are put IN FRONT of
the string when that difference is positive, and the string is returned as it
is otherwise. -/
def zeroFill (width : Nat) (number : Str) : Str :=
  if 0 < width - number.length then
    List.replicate (width - number.length) '0' ++ number
  else number

/-- Value of a hexadecimal digit, either case. -/
def hexVal? (c : Char) : Option Nat :=
  if '0' ≤ c ∧ c ≤ '9' then some (c.toNat - '0'.toNat)
  else if 'a' ≤ c ∧ c ≤ 'f' then some (c.toNat - 'a'.toNat + 10)
  else if 'A' ≤ c ∧ c ≤ 'F' then some (c.toNat - 'A'.toNat + 10)
  else none

/-- Whether a character is a hexadecimal digit. -/
def isHexChar (c : Char) : Bool := (hexVal? c).isSome

/-- Whether a string consists of hexadecimal digits only. -/
def isHex (s : Str) : Bool := s.all isHexChar

/-- Integer value of a string of hexadecimal digits (`parseInt(s, 16)` on such
a string); `none` stands for `NaN`. -/
def parseHex? (s : Str) : Option Nat :=
  if s.isEmpty then none
  else s.foldl (fun acc c => acc.bind fun a => (hexVal? c).map fun d => 16 * a + d) (some 0)

/-! ## Helpers of `lib/`, modelled from the specification -/

/-- Modelled from the spec: `util.numberToHexCode` of `lib/util` is not among
the sources.  The specification says of its result that the length code "is a
fixed-width (2 hex digit) encoding of `entropyHex.length`": the lowercase
hexadecimal digits of the number, zero-filled on the left to the given width.
The specification says nothing of the third argument, which is carried and
not interpreted. -/
def numberToHexCode (number paddedLength : Nat) (_flag : Bool) : Str :=
  zeroFill paddedLength (Nat.toDigits 16 number)

/-- The entropy lengths, in hexadecimal digits, of the data model: 128 to 256
bits in steps of 32 bits. -/
def validEntropyHexLengths : List Nat := [32, 40, 48, 56, 64]

/-- Modelled from the spec: `validators.validateWordlistName` of
`lib/validators` is not among the sources.  Step 1 of `encode`: "Resolve
`wordlistName` to `wordlistCode` via Code Tables; reject with
`InvalidWordlistName` if absent". -/
def validateWordlistName (wordlistCodes : List (Str × Str)) (wordlistName : Str) :
    Except Err Unit :=
  if (lodashGet wordlistCodes (some wordlistName)).isSome then pure ()
  else throw Err.invalidWordlistName

/-- Modelled from the spec: `validators.validateWordlistCode` of
`lib/validators` is not among the sources.  Step 3 of `decode`: the wordlist
code is resolved "via Code Tables; reject with `InvalidWordlistCode` if
unresolvable", that is, when the table assigns the code to no name. -/
def validateWordlistCode (wordlistCodes : List (Str × Str)) (wordlistCode : Str) :
    Except Err Unit :=
  if wordlistCodes.any (fun kv => kv.2 == wordlistCode) then pure ()
  else throw Err.invalidWordlistCode

/-- Modelled from the spec: `validators.validateShareableCodeChecksum` of
`lib/validators` is not among the sources.  Steps 1 and 2 of `decode`:
"Reject with `InvalidLength`/`InvalidFormat` if `shareableCode` is not 78 hex
characters", then "split into `body` (first 70 chars) and `checksum` (last 8).
Reject with `ChecksumMismatch` if `first8hex(SHA256(body)) != checksum`". -/
def validateShareableCodeChecksum (sha256 : Str → Str) (shareableCode : Str) :
    Except Err Unit :=
  if shareableCode.length ≠ 78 ∨ isHex shareableCode = false then
    throw Err.invalidShareableCode
  else if (sha256 (shareableCode.take 70)).take CHECKSUM_HEX_LENGTH
      ≠ shareableCode.drop 70 then
    throw Err.checksumMismatch
  else pure ()

/-- Modelled from the spec: `extractors.extractWordlistCode` of
`lib/extractors` is not among the sources.  Step 3 of `decode`: "Extract
`wordlistCode` (chars 2-3)". -/
def extractWordlistCode (shareableCode : Str) : Str :=
  (shareableCode.drop 2).take 2

/-- Modelled from the spec: `extractors.extractEntropyHex` of `lib/extractors`
is not among the sources.  Step 4 of `decode` and `unpack`: "Extract
`lengthCode` (chars 4-5) and `paddedHex` (chars 6-69)", "decode the length code
back to an integer `n`; return the first `n` hex digits of `paddedHex`. Reject
(signal `InvalidEntropyLength`) if `n` is outside the valid set or exceeds the
padded width". -/
def extractEntropyHex (shareableCode : Str) : Except Err Str :=
  let lengthCode := (shareableCode.drop 4).take ENTROPY_LENGTH_PADDED_HEX
  let paddedHex := (shareableCode.drop 6).take ENTROPY_PADDED_LENGTH
  match parseHex? lengthCode with
  | none => throw Err.invalidEntropyLength
  | some n =>
    if n ∈ validEntropyHexLengths ∧ n ≤ ENTROPY_PADDED_LENGTH then pure (paddedHex.take n)
    else throw Err.invalidEntropyLength

/-! ## The collaborators -/

/-- The package `bip39`, as far as `index.js` uses it: the registry
`bip39.wordlists`, the default wordlist, and the two conversions for a given
wordlist. -/
structure Bip39 where
  wordlists : List (Str × Wordlist)
  defaultWordlist : Wordlist
  toEntropy : Str → Wordlist → Except Err Str
  toMnemonic : Str → Wordlist → Except Err Str

/-- The call `bip39.mnemonicToEntropy(mnemonic, wordlist)`: the package starts
with `wordlist = wordlist || DEFAULT_WORDLIST`. -/
def Bip39.mnemonicToEntropy (b : Bip39) (mnemonic : Str) (wordlist : Option Wordlist) :
    Except Err Str :=
  b.toEntropy mnemonic (wordlist.getD b.defaultWordlist)

/-- The call `bip39.entropyToMnemonic(entropy, wordlist)`: the package starts
with `wordlist = wordlist || DEFAULT_WORDLIST`. -/
def Bip39.entropyToMnemonic (b : Bip39) (entropy : Str) (wordlist : Option Wordlist) :
    Except Err Str :=
  b.toMnemonic entropy (wordlist.getD b.defaultWordlist)

/-- The package `secrets.js-34r7h`, as far as `index.js` uses it. -/
structure Secrets where
  share : Str → Nat → Nat → Nat → Except Err (List Share)
  combine : List Share → Except Err Str
  extractShareComponentsId : Share → Nat

/-- Everything `index.js` imports and the embedding does not write out: the
hash, the two packages, the two code tables of `lib/`, and the shape
validators of `lib/validators` the specification leaves to the collaborators. -/
structure Env where
  sha256 : Str → Str
  bip39 : Bip39
  secrets : Secrets
  wordlistCodes : List (Str × Str)
  versionCodes : List (Str × Str)
  validateMnemonic : Str → Except Err Unit
  validateVersionName : Str → Except Err Unit
  validateShareCount : Nat → Except Err Unit
  validateThreshold : Nat → Except Err Unit
  validateShareList : List Share → Except Err Unit

/-! ## `index.js` -/

/-- Lines 17-21 of `index.js`.  The result is the registry entry read under
the value `_.find` returns; `undefined` is `none`. -/
def wordlistCodeToWordlist (env : Env) (wordlistCode : Str) : Except Err (Option Wordlist) := do
  validateWordlistCode env.wordlistCodes wordlistCode
  let wordlistName := lodashFind env.wordlistCodes (fun v _k => v == wordlistCode)
  pure (lodashGet env.bip39.wordlists wordlistName)

/-- Lines 23-28 of `index.js`. -/
def mnemonicToEntropy (env : Env) (mnemonic wordlistName : Str) : Except Err Str := do
  validateWordlistName env.wordlistCodes wordlistName
  match lodashGet env.bip39.wordlists (some wordlistName) with
  | none => throw Err.invalidWordlistName
  | some wordlist => env.bip39.mnemonicToEntropy mnemonic (some wordlist)

/-- Lines 30-42 of `index.js`. -/
def mnemonicToShareableCode (env : Env) (mnemonic versionName wordlistName : Str) :
    Except Err Str := do
  env.validateMnemonic mnemonic
  env.validateVersionName versionName
  validateWordlistName env.wordlistCodes wordlistName
  let wordlistCode := lodashGet env.wordlistCodes (some wordlistName)
  let entropyHex ← mnemonicToEntropy env mnemonic wordlistName
  let paddedEntropyHex := zeroFill ENTROPY_PADDED_LENGTH entropyHex
  let entropyLenghHex := numberToHexCode entropyHex.length ENTROPY_LENGTH_PADDED_HEX true
  let versionCode := lodashGetD env.versionCodes versionName "00".toList
  let rawShareableCode :=
    versionCode ++ jsToString wordlistCode ++ entropyLenghHex ++ paddedEntropyHex
  let checksum := (env.sha256 rawShareableCode).take CHECKSUM_HEX_LENGTH
  pure (rawShareableCode ++ checksum)

/-- The assignment `shareIDToShare[id] = rawShare` on an object: the entry of
an identifier already present is overwritten, a new one is added.  The list
keeps the keys in the order of their first assignment. -/
def objectSet (object : List (Nat × Share)) (id : Nat) (rawShare : Share) :
    List (Nat × Share) :=
  match object with
  | [] => [(id, rawShare)]
  | (k, v) :: rest =>
    if k = id then (k, rawShare) :: rest else (k, v) :: objectSet rest id rawShare

/-- Lines 44-59 of `index.js`. -/
def mnemonicToShares (env : Env) (mnemonic : Str) (shareCount threshold : Nat)
    (versionName wordlistName : Str) : Except Err (List (Nat × Share)) := do
  env.validateMnemonic mnemonic
  env.validateVersionName versionName
  validateWordlistName env.wordlistCodes wordlistName
  env.validateShareCount shareCount
  env.validateThreshold threshold
  let shareableCode ← mnemonicToShareableCode env mnemonic versionName wordlistName
  let rawShares ← env.secrets.share shareableCode shareCount threshold 0
  pure (rawShares.foldl
    (fun shareIDToShare rawShare =>
      objectSet shareIDToShare (env.secrets.extractShareComponentsId rawShare) rawShare) [])

/-- Lines 73-79 of `index.js`. -/
def shareableCodeToMnemonic (env : Env) (shareableCode : Str) : Except Err Str := do
  validateShareableCodeChecksum env.sha256 shareableCode
  let entropyHex ← extractEntropyHex shareableCode
  let wordlistCode := extractWordlistCode shareableCode
  let wordlist ← wordlistCodeToWordlist env wordlistCode
  env.bip39.entropyToMnemonic entropyHex wordlist

/-- Lines 61-71 of `index.js`.  The value `null` is `none`; only the call of
`shareableCodeToMnemonic` stands inside the `try`. -/
def shareListToMnemonic (env : Env) (shareList : List Share) : Except Err (Option Str) := do
  env.validateShareList shareList
  let potentialShareableCode ← env.secrets.combine shareList
  match shareableCodeToMnemonic env potentialShareableCode with
  | .error _ => pure none
  | .ok mnemonic => pure (some mnemonic)

/-- The value of `rawShareableCode` at line 39 of `index.js`, once the entropy
is known: version code, wordlist code, length code, padded entropy. -/
def rawShareableCodeOf (env : Env) (versionName wordlistName entropyHex : Str) : Str :=
  lodashGetD env.versionCodes versionName "00".toList
    ++ jsToString (lodashGet env.wordlistCodes (some wordlistName))
    ++ numberToHexCode entropyHex.length ENTROPY_LENGTH_PADDED_HEX true
    ++ zeroFill ENTROPY_PADDED_LENGTH entropyHex

/-- Every output of the hash is a SHA-256 digest in hexadecimal: 64 digits. -/
def Sha256Shape (env : Env) : Prop := ∀ s, (env.sha256 s).length = 64

/-- Every code of the two code tables is two characters long. -/
def TablesWellFormed (env : Env) : Prop :=
  (∀ kv ∈ env.wordlistCodes, kv.2.length = 2) ∧ (∀ kv ∈ env.versionCodes, kv.2.length = 2)

/-- Every digest of the hash and every code of the two code tables consists
of hexadecimal digits. -/
def HexEnv (env : Env) : Prop :=
  (∀ s, isHex (env.sha256 s) = true) ∧ (∀ kv ∈ env.wordlistCodes, isHex kv.2 = true) ∧
    (∀ kv ∈ env.versionCodes, isHex kv.2 = true)


/-! ## A concrete environment

Small stand-ins of the right shape for the collaborators, used to evaluate
the definitions above at concrete inputs. -/

/-- A stand-in digest: 64 hexadecimal digits, all equal to the digit of the
sum of the character codes of the input modulo 16. -/
def demoHash (s : Str) : Str :=
  List.replicate 64 (Nat.digitChar (s.foldl (fun a c => a + c.toNat) 0 % 16))

/-- A stand-in wordlist of sixteen one-letter words, `g` to `v`. -/
def demoEnglish : Wordlist := "ghijklmnopqrstuv".toList.map fun c => [c]

/-- A second stand-in wordlist of sixteen one-letter words, `G` to `V`. -/
def demoJapanese : Wordlist := "GHIJKLMNOPQRSTUV".toList.map fun c => [c]

/-- The stand-in conversion of a mnemonic: one word per hexadecimal digit, the
digit being the index of the word in the wordlist. -/
def demoToEntropy (mnemonic : Str) (wordlist : Wordlist) : Except Err Str :=
  if mnemonic.length ∈ validEntropyHexLengths ∧ mnemonic.all (fun c => wordlist.contains [c]) then
    pure (mnemonic.map fun c => Nat.digitChar (wordlist.indexOf [c]))
  else throw Err.invalidMnemonic

/-- The stand-in conversion of an entropy: each hexadecimal digit is rendered
as the word at that index of the wordlist. -/
def demoToMnemonic (entropy : Str) (wordlist : Wordlist) : Except Err Str :=
  if entropy.length ∈ validEntropyHexLengths ∧ isHex entropy then
    pure (entropy.flatMap fun c => wordlist.getD ((hexVal? c).getD 0) [])
  else throw Err.invalidEntropyLength

/-- The stand-in converter: two registered wordlists, the first the default. -/
def demoBip39 : Bip39 where
  wordlists := [("english".toList, demoEnglish), ("japanese".toList, demoJapanese)]
  defaultWordlist := demoEnglish
  toEntropy := demoToEntropy
  toMnemonic := demoToMnemonic

/-- The stand-in sharing: share number `i` is the digit of `i`, the digit of
the threshold, and the secret itself. -/
def demoShare (secret : Str) (numShares threshold _padLength : Nat) : Except Err (List Share) :=
  if 2 ≤ threshold ∧ threshold ≤ numShares ∧ numShares ≤ 15 then
    pure ((List.range numShares).map fun i =>
      Nat.digitChar (i + 1) :: Nat.digitChar threshold :: secret)
  else throw (Err.library 0)

/-- The stand-in reconstruction: the secret of the first share when the list
holds at least the threshold of distinct identifiers, the empty string
otherwise. -/
def demoCombine (shares : List Share) : Except Err Str :=
  match shares with
  | [] => throw (Err.library 1)
  | first :: _ =>
    if (hexVal? (first.getD 1 '0')).getD 0 ≤ ((shares.map fun s => s.head?).eraseDups).length then
      pure (first.drop 2)
    else pure []

/-- The stand-in secret-sharing package. -/
def demoSecrets : Secrets where
  share := demoShare
  combine := demoCombine
  extractShareComponentsId := fun s => (hexVal? (s.headD '0')).getD 0

/-- The concrete environment: two wordlist codes, one version code, and shape
validators that accept non-empty mnemonics and share lists and counts from 2
to 15. -/
def demoEnv : Env where
  sha256 := demoHash
  bip39 := demoBip39
  secrets := demoSecrets
  wordlistCodes := [("english".toList, "00".toList), ("japanese".toList, "01".toList)]
  versionCodes := [("v1".toList, "01".toList)]
  validateMnemonic := fun m => if m.isEmpty then throw Err.invalidMnemonic else pure ()
  validateVersionName := fun _ => pure ()
  validateShareCount := fun n => if 2 ≤ n ∧ n ≤ 15 then pure () else throw Err.invalidShareCount
  validateThreshold := fun t => if 2 ≤ t ∧ t ≤ 15 then pure () else throw Err.invalidThreshold
  validateShareList := fun l => if l.isEmpty then throw Err.invalidShareList else pure ()

/-- The concrete environment with a validator of version names that rejects
the names without an entry in the version code table. -/
def strictEnv : Env :=
  { demoEnv with
    validateVersionName := fun v =>
      if (lodashGet demoEnv.versionCodes (some v)).isSome then pure ()
      else throw Err.invalidVersionName }

/-- A 24-word mnemonic of the second wordlist (64 hexadecimal digits of
entropy). -/
def demoMnemonicJa : Str := List.replicate 64 'H'

/-- A 12-word mnemonic of the default wordlist (32 hexadecimal digits of
entropy). -/
def demoMnemonicEn : Str := List.replicate 32 'h'

/-- The shareable code of `demoMnemonicEn` under version `v1` and wordlist
`english` in the concrete environment. -/
def demoCodeEn : Str :=
  "01".toList ++ "00".toList ++ "20".toList
    ++ (List.replicate 32 '0' ++ List.replicate 32 '1') ++ List.replicate 8 '3'

/-- A string of 78 hexadecimal digits with a correct checksum under the
stand-in digest, the unassigned wordlist code `7f` and the length code `40`. -/
def demoCodeUnassigned : Str :=
  "01".toList ++ "7f".toList ++ "40".toList ++ List.replicate 64 '1' ++ List.replicate 8 '2'

/-- The shareable code of `demoMnemonicJa` under version `v1` and wordlist
`japanese` in the concrete environment. -/
def demoCodeJa : Str :=
  "01".toList ++ "01".toList ++ "40".toList ++ List.replicate 64 '1' ++ List.replicate 8 '6'

/-- A 24-word mnemonic of the default wordlist (64 hexadecimal digits of
entropy). -/
def demoMnemonicEn64 : Str := List.replicate 64 'h'

/-- The shareable code of `demoMnemonicEn64` under version `v1` and wordlist
`english` in the concrete environment. -/
def demoCodeEn64 : Str :=
  "01".toList ++ "00".toList ++ "40".toList ++ List.replicate 64 '1' ++ List.replicate 8 '5'

/-- The code `demoCodeEn64` with the version field `02` and the checksum that
goes with it under the stand-in digest. -/
def demoCodeEn64V2 : Str :=
  "02".toList ++ "00".toList ++ "40".toList ++ List.replicate 64 '1' ++ List.replicate 8 '6'

/-- Another 24-word mnemonic of the default wordlist. -/
def demoMnemonicPad : Str := List.replicate 64 'i'

/-- The shareable code of `demoMnemonicPad` under version `v1` and wordlist
`english` in the concrete environment. -/
def demoCodePad : Str :=
  "01".toList ++ "00".toList ++ "40".toList ++ List.replicate 64 '2' ++ List.replicate 8 '5'

/-- Digit by digit sum modulo 16 of two strings of hexadecimal digits. -/
def hexAdd (a b : Str) : Str :=
  List.zipWith (fun x y => Nat.digitChar (((hexVal? x).getD 0 + (hexVal? y).getD 0) % 16)) a b

/-- Digit by digit difference modulo 16 of two strings of hexadecimal digits. -/
def hexSub (a b : Str) : Str :=
  List.zipWith
    (fun x y => Nat.digitChar (((hexVal? x).getD 0 + 16 - (hexVal? y).getD 0) % 16)) a b

/-- A two-out-of-two sharing with a given pad, the pad standing for the random
choice of the scheme: the first share carries the pad, the second the secret
minus the pad.  Each share alone is consistent with every secret. -/
def padShare (pad secret : Str) (numShares threshold _padLength : Nat) :
    Except Err (List Share) :=
  if numShares = 2 ∧ threshold = 2 then pure ['1' :: pad, '2' :: hexSub secret pad]
  else throw (Err.library 0)

/-- The reconstruction of the two-out-of-two sharing: the sum of the data of
two shares with different identifiers, and the data of the first share when
there is no second identifier. -/
def padCombine (shares : List Share) : Except Err Str :=
  match shares with
  | [] => throw (Err.library 1)
  | [s] => pure (s.drop 1)
  | s1 :: s2 :: _ =>
    if s1.head? = s2.head? then pure (s1.drop 1) else pure (hexAdd (s1.drop 1) (s2.drop 1))

/-- The concrete environment with the two-out-of-two sharing, in an execution
where the pad drawn is `demoCodePad`. -/
def padEnv : Env :=
  { demoEnv with
    secrets :=
      { share := padShare demoCodePad
        combine := padCombine
        extractShareComponentsId := fun s => (hexVal? (s.headD '0')).getD 0 } }

end ShareableSeed

/-! ## Properties -/

namespace ShareableSeed

set_option maxRecDepth 100000

/-- What a successful run of lines 30-42 has computed. -/
theorem mnemonicToShareableCode_ok {env : Env} {m v w code : Str}
    (h : mnemonicToShareableCode env m v w = .ok code) :
    ∃ e, env.validateMnemonic m = .ok () ∧ env.validateVersionName v = .ok () ∧
      validateWordlistName env.wordlistCodes w = .ok () ∧
      mnemonicToEntropy env m w = .ok e ∧
      code = rawShareableCodeOf env v w e
        ++ (env.sha256 (rawShareableCodeOf env v w e)).take CHECKSUM_HEX_LENGTH := by
  unfold mnemonicToShareableCode at h
  cases h1 : env.validateMnemonic m with
  | error e => simp [h1, bind, Except.bind] at h
  | ok u1 =>
    cases h2 : env.validateVersionName v with
    | error e => simp [h1, h2, bind, Except.bind] at h
    | ok u2 =>
      cases h3 : validateWordlistName env.wordlistCodes w with
      | error e => simp [h1, h2, h3, bind, Except.bind] at h
      | ok u3 =>
        cases h4 : mnemonicToEntropy env m w with
        | error e => simp [h1, h2, h3, h4, bind, Except.bind] at h
        | ok e =>
          simp only [h1, h2, h3, h4, bind, Except.bind, pure, Except.pure, Except.ok.injEq] at h
          exact ⟨e, rfl, rfl, rfl, rfl, h.symm⟩

/-- The converse: the result of lines 30-42 when every check passes. -/
theorem mnemonicToShareableCode_of_ok {env : Env} {m v w e : Str}
    (h1 : env.validateMnemonic m = .ok ()) (h2 : env.validateVersionName v = .ok ())
    (h4 : mnemonicToEntropy env m w = .ok e) :
    mnemonicToShareableCode env m v w = .ok (rawShareableCodeOf env v w e
        ++ (env.sha256 (rawShareableCodeOf env v w e)).take CHECKSUM_HEX_LENGTH) := by
  have h3 : validateWordlistName env.wordlistCodes w = .ok () := by
    unfold mnemonicToEntropy at h4
    cases h3 : validateWordlistName env.wordlistCodes w with
    | error e => simp [h3, bind, Except.bind] at h4
    | ok u => rfl
  unfold mnemonicToShareableCode
  simp only [h1, h2, h3, h4, bind, Except.bind, pure, Except.pure]
  rfl

/-- The five fields of a concatenation of widths 2, 2, 2, 64 and 8. -/
theorem fields_of_append {α : Type} (a b c d k : List α) (ha : a.length = 2)
    (hb : b.length = 2) (hc : c.length = 2) (hd : d.length = 64) (hk : k.length = 8) :
    (a ++ b ++ c ++ d ++ k).length = 78 ∧ (a ++ b ++ c ++ d ++ k).take 2 = a ∧
      ((a ++ b ++ c ++ d ++ k).drop 2).take 2 = b ∧
      ((a ++ b ++ c ++ d ++ k).drop 4).take 2 = c ∧
      ((a ++ b ++ c ++ d ++ k).drop 6).take 64 = d ∧
      (a ++ b ++ c ++ d ++ k).drop 70 = k ∧
      (a ++ b ++ c ++ d ++ k).take 70 = a ++ b ++ c ++ d := by
  have hab : (a ++ b).length = 4 := by simp [ha, hb]
  have habc : (a ++ b ++ c).length = 6 := by simp [ha, hb, hc]
  have habcd : (a ++ b ++ c ++ d).length = 70 := by simp [ha, hb, hc, hd]
  refine ⟨by simp [ha, hb, hc, hd, hk], ?_, ?_, ?_, ?_, ?_, ?_⟩
  · have : a ++ b ++ c ++ d ++ k = a ++ (b ++ c ++ d ++ k) := by simp
    rw [this, List.take_left' ha]
  · have : a ++ b ++ c ++ d ++ k = a ++ (b ++ (c ++ d ++ k)) := by simp
    rw [this, List.drop_left' ha, List.take_left' hb]
  · have : a ++ b ++ c ++ d ++ k = (a ++ b) ++ (c ++ (d ++ k)) := by simp
    rw [this, List.drop_left' hab, List.take_left' hc]
  · have : a ++ b ++ c ++ d ++ k = (a ++ b ++ c) ++ (d ++ k) := by simp
    rw [this, List.drop_left' habc, List.take_left' hd]
  · rw [List.drop_left' habcd]
  · rw [List.take_left' habcd]

/-- A value read from a well-formed code table is two characters long. -/
theorem length_of_lodashGet {table : List (Str × Str)} {key : Option Str} {v : Str}
    (htab : ∀ kv ∈ table, kv.2.length = 2) (h : lodashGet table key = some v) :
    v.length = 2 := by
  unfold lodashGet at h
  rw [Option.map_eq_some'] at h
  obtain ⟨kv, hkv, rfl⟩ := h
  exact htab kv (List.mem_of_find?_eq_some hkv)

/-- The version code of line 38 is two characters long. -/
theorem length_lodashGetD {table : List (Str × Str)} (key : Str)
    (htab : ∀ kv ∈ table, kv.2.length = 2) :
    (lodashGetD table key "00".toList).length = 2 := by
  unfold lodashGetD
  cases h : lodashGet table (some key) with
  | none => rfl
  | some v => exact length_of_lodashGet htab h

/-- The length code of a number below 256 is two characters long. -/
theorem length_numberToHexCode : ∀ n, n < 256 →
    (numberToHexCode n ENTROPY_LENGTH_PADDED_HEX true).length = 2 := by
  decide

/-- The length code of a number below 256 reads back as that number. -/
theorem parseHex_numberToHexCode : ∀ n, n < 256 →
    parseHex? (numberToHexCode n ENTROPY_LENGTH_PADDED_HEX true) = some n := by
  decide

/-- The padded field has the requested width when the string fits. -/
theorem length_zeroFill (width : Nat) (s : Str) (h : s.length ≤ width) :
    (zeroFill width s).length = width := by
  unfold zeroFill
  split
  · simp; omega
  · omega

/-- The stand-in digest has the shape of a SHA-256 digest. -/
theorem demoEnv_sha256Shape : Sha256Shape demoEnv := by
  intro s
  simp [demoEnv, demoHash]

/-- The code tables of the concrete environment are well formed. -/
theorem demoEnv_tablesWellFormed : TablesWellFormed demoEnv := by
  unfold TablesWellFormed demoEnv
  decide

/-- C3: for a share list that passes the share-list validation and for which
the reconstruction returns a candidate `c`, `shareListToMnemonic` does not
raise; its result is `null` exactly when `shareableCodeToMnemonic c` fails
(whatever the error), and is the mnemonic `shareableCodeToMnemonic c` returns
otherwise. -/
theorem shareListToMnemonic_null_iff_decode_fails (env : Env) (shareList : List Share)
    (c : Str) (hv : env.validateShareList shareList = .ok ())
    (hc : env.secrets.combine shareList = .ok c) :
    ∃ r, shareListToMnemonic env shareList = .ok r ∧
      (r = none ↔ ∃ e, shareableCodeToMnemonic env c = .error e) ∧
      (∀ m, shareableCodeToMnemonic env c = .ok m → r = some m) := by
  unfold shareListToMnemonic
  simp only [hv, hc, bind, Except.bind]
  cases hd : shareableCodeToMnemonic env c with
  | error e => exact ⟨none, rfl, by simp, by intro m hm; cases hm⟩
  | ok m =>
    refine ⟨some m, rfl, by simp, ?_⟩
    intro m2 hm
    cases hm
    rfl

/-- C3, at a concrete input: two shares of the code `demoCodeEn`, which pass
the validation and recombine to it. -/
theorem shareListToMnemonic_null_iff_decode_fails_witness :
    demoEnv.validateShareList ["12".toList ++ demoCodeEn, "22".toList ++ demoCodeEn]
        = .ok () ∧
      demoEnv.secrets.combine ["12".toList ++ demoCodeEn, "22".toList ++ demoCodeEn]
        = .ok demoCodeEn ∧
      ∃ r, shareListToMnemonic demoEnv
          ["12".toList ++ demoCodeEn, "22".toList ++ demoCodeEn] = .ok r ∧
        (r = none ↔ ∃ e, shareableCodeToMnemonic demoEnv demoCodeEn = .error e) ∧
        (∀ m, shareableCodeToMnemonic demoEnv demoCodeEn = .ok m → r = some m) :=
  ⟨by decide, by decide, shareListToMnemonic_null_iff_decode_fails demoEnv
    ["12".toList ++ demoCodeEn, "22".toList ++ demoCodeEn] demoCodeEn (by decide) (by decide)⟩

/-- C4: whenever `mnemonicToShareableCode` succeeds, the last 8 characters of
its result are the first 8 hexadecimal digits of the SHA-256 digest of all the
characters before them, and those characters are the body: version code,
wordlist code, length code and padded entropy.  The hash is any function
whose digests are 64 hexadecimal digits long. -/
theorem mnemonicToShareableCode_checksum (env : Env) (hsha : Sha256Shape env)
    (m v w code : Str) (h : mnemonicToShareableCode env m v w = .ok code) :
    code.drop (code.length - 8) = (env.sha256 (code.take (code.length - 8))).take 8 ∧
      ∃ e, mnemonicToEntropy env m w = .ok e ∧
        code.take (code.length - 8) = rawShareableCodeOf env v w e := by
  obtain ⟨e, -, -, -, he, hcode⟩ := mnemonicToShareableCode_ok h
  have hlen : ((env.sha256 (rawShareableCodeOf env v w e)).take CHECKSUM_HEX_LENGTH).length
      = 8 := by
    simp [CHECKSUM_HEX_LENGTH, hsha _]
  have hsub : code.length - 8 = (rawShareableCodeOf env v w e).length := by
    rw [hcode, List.length_append, hlen]; omega
  have htake : code.take (code.length - 8) = rawShareableCodeOf env v w e := by
    rw [hsub, hcode, List.take_left]
  refine ⟨?_, e, he, htake⟩
  rw [htake, hsub, hcode, List.drop_left]
  rfl

/-- C4, at a concrete input: a 12-word mnemonic of the default wordlist. -/
theorem mnemonicToShareableCode_checksum_witness :
    demoCodeEn.drop (demoCodeEn.length - 8)
        = (demoEnv.sha256 (demoCodeEn.take (demoCodeEn.length - 8))).take 8 ∧
      ∃ e, mnemonicToEntropy demoEnv demoMnemonicEn "english".toList = .ok e ∧
        demoCodeEn.take (demoCodeEn.length - 8)
          = rawShareableCodeOf demoEnv "v1".toList "english".toList e :=
  mnemonicToShareableCode_checksum demoEnv demoEnv_sha256Shape
    demoMnemonicEn "v1".toList "english".toList demoCodeEn (by decide)

/-- A successful `mnemonicToEntropy` has found the wordlist name in the code
table. -/
theorem wordlistCode_of_mnemonicToEntropy {env : Env} {m w e : Str}
    (he : mnemonicToEntropy env m w = .ok e) :
    ∃ wordlistCode, lodashGet env.wordlistCodes (some w) = some wordlistCode := by
  unfold mnemonicToEntropy validateWordlistName at he
  cases hg : lodashGet env.wordlistCodes (some w) with
  | none => simp [hg, bind, Except.bind, throw, throwThe, MonadExceptOf.throw] at he
  | some c => exact ⟨c, rfl⟩

/-- C5: for a mnemonic and a version name accepted by their validators, a
wordlist name that resolves, and an entropy of 32, 40, 48, 56 or 64
hexadecimal digits, `mnemonicToShareableCode` returns a string of exactly 78
characters: the version code (characters 0-1), the wordlist code (2-3), the
two-digit hexadecimal encoding of the entropy length (4-5), the 64-character
padded entropy (6-69) and the 8-character checksum of the first 70 characters
(70-77).  The code tables are any tables whose codes are two characters long,
the hash any function whose digests are 64 hexadecimal digits long. -/
theorem mnemonicToShareableCode_layout (env : Env) (hsha : Sha256Shape env)
    (htab : TablesWellFormed env) (m v w e : Str)
    (h1 : env.validateMnemonic m = .ok ()) (h2 : env.validateVersionName v = .ok ())
    (he : mnemonicToEntropy env m w = .ok e) (hlen : e.length ∈ validEntropyHexLengths) :
    ∃ code wordlistCode, mnemonicToShareableCode env m v w = .ok code ∧
      lodashGet env.wordlistCodes (some w) = some wordlistCode ∧
      code.length = 78 ∧
      code.take 2 = lodashGetD env.versionCodes v "00".toList ∧
      (code.drop 2).take 2 = wordlistCode ∧
      (code.drop 4).take 2 = numberToHexCode e.length 2 true ∧
      parseHex? ((code.drop 4).take 2) = some e.length ∧
      (code.drop 6).take 64 = zeroFill 64 e ∧
      code.drop 70 = (env.sha256 (code.take 70)).take 8 := by
  obtain ⟨wc, hwc⟩ := wordlistCode_of_mnemonicToEntropy he
  have hn : e.length ≤ 64 := by
    simp [validEntropyHexLengths] at hlen
    omega
  have hf := fields_of_append (lodashGetD env.versionCodes v "00".toList) wc
    (numberToHexCode e.length ENTROPY_LENGTH_PADDED_HEX true)
    (zeroFill ENTROPY_PADDED_LENGTH e)
    ((env.sha256 (rawShareableCodeOf env v w e)).take CHECKSUM_HEX_LENGTH)
    (length_lodashGetD v htab.2) (length_of_lodashGet htab.1 hwc)
    (length_numberToHexCode _ (by omega)) (length_zeroFill _ _ hn)
    (by simp [CHECKSUM_HEX_LENGTH, hsha _])
  have hraw : rawShareableCodeOf env v w e = lodashGetD env.versionCodes v "00".toList ++ wc
      ++ numberToHexCode e.length ENTROPY_LENGTH_PADDED_HEX true
      ++ zeroFill ENTROPY_PADDED_LENGTH e := by
    simp [rawShareableCodeOf, hwc, jsToString]
  rw [← hraw] at hf
  obtain ⟨f0, f1, f2, f3, f4, f5, f6⟩ := hf
  refine ⟨_, wc, mnemonicToShareableCode_of_ok h1 h2 he, hwc, f0, f1, f2, f3, ?_, f4, ?_⟩
  · rw [f3]
    exact parseHex_numberToHexCode _ (by omega)
  · rw [f5, f6]
    rfl

/-- C5, at a concrete input: a 12-word mnemonic of the default wordlist. -/
theorem mnemonicToShareableCode_layout_witness :
    ∃ code wordlistCode,
      mnemonicToShareableCode demoEnv demoMnemonicEn "v1".toList "english".toList = .ok code ∧
      lodashGet demoEnv.wordlistCodes (some "english".toList) = some wordlistCode ∧
      code.length = 78 ∧
      code.take 2 = lodashGetD demoEnv.versionCodes "v1".toList "00".toList ∧
      (code.drop 2).take 2 = wordlistCode ∧
      (code.drop 4).take 2 = numberToHexCode (List.replicate 32 '1').length 2 true ∧
      parseHex? ((code.drop 4).take 2) = some (List.replicate 32 '1').length ∧
      (code.drop 6).take 64 = zeroFill 64 (List.replicate 32 '1') ∧
      code.drop 70 = (demoEnv.sha256 (code.take 70)).take 8 :=
  mnemonicToShareableCode_layout demoEnv demoEnv_sha256Shape demoEnv_tablesWellFormed
    demoMnemonicEn "v1".toList "english".toList (List.replicate 32 '1')
    (by decide) (by decide) (by decide) (by decide)

/-- C6, as stated, fails: the entropy of `demoMnemonicEn` is 32 digits `1`, and
the padded field of its shareable code begins with 32 digits `0` and ends with
the entropy, so that neither are its first 32 characters the entropy nor its
last 32 characters zeros. -/
theorem paddedEntropy_not_right_padded :
    mnemonicToEntropy demoEnv demoMnemonicEn "english".toList = .ok (List.replicate 32 '1') ∧
      mnemonicToShareableCode demoEnv demoMnemonicEn "v1".toList "english".toList
        = .ok demoCodeEn ∧
      ((demoCodeEn.drop 6).take 64).take 32 ≠ List.replicate 32 '1' ∧
      ((demoCodeEn.drop 6).take 64).drop 32 ≠ List.replicate 32 '0' := by
  decide

/-- C6, amended: for an entropy `e` of `n ≤ 64` hexadecimal digits returned by
the converter, the padded entropy field (characters 6-69) written by
`mnemonicToShareableCode` is exactly 64 characters long and is `e` padded with
`0` ON THE LEFT: its last `n` characters are `e` and its first `64 - n`
characters are all `0`.  The code tables are any tables whose codes are two
characters long, the hash any function whose digests are 64 hexadecimal digits
long. -/
theorem paddedEntropy_left_padded (env : Env) (hsha : Sha256Shape env)
    (htab : TablesWellFormed env) (m v w e code : Str)
    (he : mnemonicToEntropy env m w = .ok e) (hn : e.length ≤ 64)
    (h : mnemonicToShareableCode env m v w = .ok code) :
    ((code.drop 6).take 64).length = 64 ∧
      ((code.drop 6).take 64).drop (64 - e.length) = e ∧
      ((code.drop 6).take 64).take (64 - e.length) = List.replicate (64 - e.length) '0' := by
  obtain ⟨e2, -, -, -, he2, hcode⟩ := mnemonicToShareableCode_ok h
  rw [he] at he2
  cases he2
  obtain ⟨wc, hwc⟩ := wordlistCode_of_mnemonicToEntropy he
  have hf := fields_of_append (lodashGetD env.versionCodes v "00".toList) wc
    (numberToHexCode e.length ENTROPY_LENGTH_PADDED_HEX true)
    (zeroFill ENTROPY_PADDED_LENGTH e)
    ((env.sha256 (rawShareableCodeOf env v w e)).take CHECKSUM_HEX_LENGTH)
    (length_lodashGetD v htab.2) (length_of_lodashGet htab.1 hwc)
    (length_numberToHexCode _ (by omega)) (length_zeroFill _ _ hn)
    (by simp [CHECKSUM_HEX_LENGTH, hsha _])
  have hraw : rawShareableCodeOf env v w e = lodashGetD env.versionCodes v "00".toList ++ wc
      ++ numberToHexCode e.length ENTROPY_LENGTH_PADDED_HEX true
      ++ zeroFill ENTROPY_PADDED_LENGTH e := by
    simp [rawShareableCodeOf, hwc, jsToString]
  rw [← hraw, ← hcode] at hf
  obtain ⟨-, -, -, -, f4, -, -⟩ := hf
  rw [f4]
  have hz : zeroFill ENTROPY_PADDED_LENGTH e = List.replicate (64 - e.length) '0' ++ e := by
    unfold zeroFill ENTROPY_PADDED_LENGTH
    split
    · rfl
    · have : 64 - e.length = 0 := by omega
      simp [this]
  rw [hz]
  refine ⟨by simp; omega, ?_, ?_⟩
  · rw [List.drop_left' (by simp)]
  · rw [List.take_left' (by simp)]

/-- C6 amended, at a concrete input: a 12-word mnemonic of the default
wordlist. -/
theorem paddedEntropy_left_padded_witness :
    ((demoCodeEn.drop 6).take 64).length = 64 ∧
      ((demoCodeEn.drop 6).take 64).drop (64 - (List.replicate 32 '1').length)
        = List.replicate 32 '1' ∧
      ((demoCodeEn.drop 6).take 64).take (64 - (List.replicate 32 '1').length)
        = List.replicate (64 - (List.replicate 32 '1').length) '0' :=
  paddedEntropy_left_padded demoEnv demoEnv_sha256Shape demoEnv_tablesWellFormed
    demoMnemonicEn "v1".toList "english".toList (List.replicate 32 '1') demoCodeEn
    (by decide) (by decide) (by decide)

/-- Lines 18-20 for a code the table assigns: the validation passes, `_.find`
returns the code itself, and the registry is read under the code. -/
theorem wordlistCodeToWordlist_of_assigned (env : Env) (wordlistCode : Str)
    (h : ∃ kv ∈ env.wordlistCodes, kv.2 = wordlistCode) :
    wordlistCodeToWordlist env wordlistCode
      = .ok (lodashGet env.bip39.wordlists (some wordlistCode)) := by
  have hany : env.wordlistCodes.any (fun kv => kv.2 == wordlistCode) = true := by
    rw [List.any_eq_true]
    obtain ⟨kv, hkv, hc⟩ := h
    exact ⟨kv, hkv, by simp [hc]⟩
  have hfind : lodashFind env.wordlistCodes (fun v _k => v == wordlistCode)
      = some wordlistCode := by
    unfold lodashFind
    cases hf : env.wordlistCodes.find? (fun kv => kv.2 == wordlistCode) with
    | none =>
      rw [List.find?_eq_none] at hf
      obtain ⟨kv, hkv, hc⟩ := h
      exact absurd (by simp [hc]) (hf kv hkv)
    | some kv =>
      have := List.find?_some hf
      simp at this
      simp [this]
  unfold wordlistCodeToWordlist validateWordlistCode
  simp only [hany, hfind, if_true, bind, Except.bind, pure, Except.pure]

/-- Line 18 for a code the table does not assign: the validation raises. -/
theorem wordlistCodeToWordlist_of_unassigned (env : Env) (wordlistCode : Str)
    (h : ∀ kv ∈ env.wordlistCodes, kv.2 ≠ wordlistCode) :
    wordlistCodeToWordlist env wordlistCode = .error Err.invalidWordlistCode := by
  have hany : env.wordlistCodes.any (fun kv => kv.2 == wordlistCode) = false := by
    rw [List.any_eq_false]
    intro kv hkv
    simpa using h kv hkv
  unfold wordlistCodeToWordlist validateWordlistCode
  simp [hany, bind, Except.bind, throw, throwThe, MonadExceptOf.throw]

/-- In the two stand-in wordlists, the digit of a word reads back as that
word. -/
theorem demoWord_inverse (wl : Wordlist) (hwl : wl = demoEnglish ∨ wl = demoJapanese)
    (c : Char) (hc : wl.contains [c] = true) :
    isHexChar (Nat.digitChar (wl.indexOf [c])) = true ∧
      wl.getD ((hexVal? (Nat.digitChar (wl.indexOf [c]))).getD 0) [] = [c] := by
  have key : ∀ a : String, a = "ghijklmnopqrstuv" ∨ a = "GHIJKLMNOPQRSTUV" →
      ∀ x ∈ a.toList,
        isHexChar (Nat.digitChar ((a.toList.map fun c => [c]).indexOf [x])) = true ∧
        (a.toList.map fun c => [c]).getD
          ((hexVal? (Nat.digitChar ((a.toList.map fun c => [c]).indexOf [x]))).getD 0) []
          = [x] := by
    intro a ha
    rcases ha with rfl | rfl <;> decide
  rcases hwl with rfl | rfl
  · have hmem : c ∈ "ghijklmnopqrstuv".toList := by
      simpa [demoEnglish] using hc
    exact key _ (Or.inl rfl) c hmem
  · have hmem : c ∈ "GHIJKLMNOPQRSTUV".toList := by
      simpa [demoJapanese] using hc
    exact key _ (Or.inr rfl) c hmem

/-- The stand-in converter satisfies the contract of the external converter:
rendering the entropy of a valid mnemonic in the same wordlist gives the
mnemonic back. -/
theorem demoBip39_inverse (wl : Wordlist) (hwl : wl = demoEnglish ∨ wl = demoJapanese)
    (m e : Str) (h : demoBip39.toEntropy m wl = .ok e) :
    demoBip39.toMnemonic e wl = .ok m := by
  simp only [demoBip39, demoToEntropy, demoToMnemonic] at h ⊢
  split at h
  · rename_i hvalid
    simp only [pure, Except.pure, Except.ok.injEq] at h
    subst h
    obtain ⟨hlen, hall⟩ := hvalid
    rw [List.all_eq_true] at hall
    have hhex : isHex (m.map fun c => Nat.digitChar (wl.indexOf [c])) = true := by
      unfold isHex
      rw [List.all_eq_true]
      intro d hd
      rw [List.mem_map] at hd
      obtain ⟨c, hc, rfl⟩ := hd
      exact (demoWord_inverse wl hwl c (hall c hc)).1
    have hback : ∀ l : Str, (∀ c ∈ l, wl.contains [c] = true) →
        (l.map fun c => Nat.digitChar (wl.indexOf [c])).flatMap
          (fun c => wl.getD ((hexVal? c).getD 0) []) = l := by
      intro l
      induction l with
      | nil => intro _; rfl
      | cons c l ih =>
        intro hl
        simp only [List.map_cons, List.flatMap_cons]
        rw [(demoWord_inverse wl hwl c (hl c (List.mem_cons_self c l))).2,
          ih (fun x hx => hl x (List.mem_cons_of_mem c hx))]
        rfl
    rw [if_pos ⟨by simpa using hlen, hhex⟩, hback m hall]
    rfl
  · simp [throw, throwThe, MonadExceptOf.throw] at h

/-- C1, at a failing input: `demoMnemonicJa` is a valid mnemonic of the
wordlist `japanese`, the converter gives it back from its entropy under that
wordlist, and the encoder returns `demoCodeJa`; the decoder reads the registry
under the code `01`, finds nothing, and renders the entropy in the default
wordlist: the result is not the mnemonic. -/
theorem roundTrip_fails_for_nonDefault_wordlist :
    demoEnv.bip39.toEntropy demoMnemonicJa demoJapanese = .ok (List.replicate 64 '1') ∧
      demoEnv.bip39.toMnemonic (List.replicate 64 '1') demoJapanese = .ok demoMnemonicJa ∧
      mnemonicToShareableCode demoEnv demoMnemonicJa "v1".toList "japanese".toList
        = .ok demoCodeJa ∧
      shareableCodeToMnemonic demoEnv demoCodeJa = .ok (List.replicate 64 'h') ∧
      shareableCodeToMnemonic demoEnv demoCodeJa ≠ .ok demoMnemonicJa := by
  decide

/-- C2, at a failing input: the split of `demoMnemonicJa` (3 shares, threshold
2, wordlist `japanese`) succeeds; every list of two distinct shares of it is
accepted, recombines to the shareable code exactly, and is decoded to a
mnemonic of the default wordlist, not to `demoMnemonicJa`. -/
theorem splitCombine_fails_for_nonDefault_wordlist :
    mnemonicToShares demoEnv demoMnemonicJa 3 2 "v1".toList "japanese".toList
        = .ok [(1, "12".toList ++ demoCodeJa), (2, "22".toList ++ demoCodeJa),
          (3, "32".toList ++ demoCodeJa)] ∧
      ∀ a ∈ ["12".toList, "22".toList, "32".toList],
        ∀ b ∈ ["12".toList, "22".toList, "32".toList], a ≠ b →
          demoEnv.secrets.combine [a ++ demoCodeJa, b ++ demoCodeJa] = .ok demoCodeJa ∧
          shareListToMnemonic demoEnv [a ++ demoCodeJa, b ++ demoCodeJa]
            = .ok (some (List.replicate 64 'h')) ∧
          shareListToMnemonic demoEnv [a ++ demoCodeJa, b ++ demoCodeJa]
            ≠ .ok (some demoMnemonicJa) := by
  decide

/-- C7, at a failing input: the code table assigns `01` to `japanese` and the
registry holds a wordlist under `japanese`, yet `wordlistCodeToWordlist`
returns `undefined` for `01`, and `shareableCodeToMnemonic` renders the entropy
in the default wordlist, which differs from the rendering in the registered
one. -/
theorem wordlistCodeToWordlist_misses_registered_wordlist :
    lodashGet demoEnv.wordlistCodes (some "japanese".toList) = some "01".toList ∧
      lodashGet demoEnv.bip39.wordlists (some "japanese".toList) = some demoJapanese ∧
      wordlistCodeToWordlist demoEnv "01".toList = .ok none ∧
      shareableCodeToMnemonic demoEnv demoCodeJa
        = demoEnv.bip39.toMnemonic (List.replicate 64 '1') demoEnv.bip39.defaultWordlist ∧
      shareableCodeToMnemonic demoEnv demoCodeJa
        ≠ demoEnv.bip39.toMnemonic (List.replicate 64 '1') demoJapanese := by
  decide

/-- C8: for every shareable code with a correct checksum (78 hexadecimal
characters, the last 8 being the checksum of the first 70), a length field
(characters 4-5) that holds one of the entropy lengths of the data model, and
a wordlist field (characters 2-3) that the code table assigns to no name,
`shareableCodeToMnemonic` fails with the invalid-wordlist-code error and
returns no mnemonic. -/
theorem shareableCodeToMnemonic_unassigned_wordlist (env : Env) (c : Str)
    (hck : validateShareableCodeChecksum env.sha256 c = .ok ())
    (hlen : ∃ n ∈ validEntropyHexLengths, parseHex? ((c.drop 4).take 2) = some n)
    (hun : ∀ kv ∈ env.wordlistCodes, kv.2 ≠ extractWordlistCode c) :
    shareableCodeToMnemonic env c = .error Err.invalidWordlistCode ∧
      ∀ m, shareableCodeToMnemonic env c ≠ .ok m := by
  have hw := wordlistCodeToWordlist_of_unassigned env _ hun
  obtain ⟨n, hn, hparse⟩ := hlen
  have hn64 : n ≤ ENTROPY_PADDED_LENGTH := by
    simp [validEntropyHexLengths] at hn
    unfold ENTROPY_PADDED_LENGTH
    omega
  have hx : extractEntropyHex c = .ok (((c.drop 6).take ENTROPY_PADDED_LENGTH).take n) := by
    unfold extractEntropyHex
    simp only [ENTROPY_LENGTH_PADDED_HEX, hparse]
    rw [if_pos ⟨hn, hn64⟩]
    rfl
  have hdec : shareableCodeToMnemonic env c = .error Err.invalidWordlistCode := by
    unfold shareableCodeToMnemonic
    simp only [hck, hx, hw, bind, Except.bind]
  refine ⟨hdec, ?_⟩
  intro m hm
  rw [hdec] at hm
  cases hm

/-- C8, at a concrete input: a code with a correct checksum, the length field
`40` and the wordlist code `7f`, which the code table does not assign. -/
theorem shareableCodeToMnemonic_unassigned_wordlist_witness :
    validateShareableCodeChecksum demoEnv.sha256 demoCodeUnassigned = .ok () ∧
      parseHex? ((demoCodeUnassigned.drop 4).take 2) = some 64 ∧
      (∀ kv ∈ demoEnv.wordlistCodes, kv.2 ≠ extractWordlistCode demoCodeUnassigned) ∧
      shareableCodeToMnemonic demoEnv demoCodeUnassigned = .error Err.invalidWordlistCode ∧
      ∀ m, shareableCodeToMnemonic demoEnv demoCodeUnassigned ≠ .ok m :=
  ⟨by decide, by decide, by decide,
    shareableCodeToMnemonic_unassigned_wordlist demoEnv demoCodeUnassigned
      (by decide) ⟨64, by decide, by decide⟩ (by decide)⟩

/-- C9: for every string of 78 hexadecimal characters whose last 8 characters
differ from the first 8 hexadecimal digits of the SHA-256 digest of its first
70 characters, `shareableCodeToMnemonic` fails with the checksum-mismatch
error, whatever the wordlist, length and entropy fields contain. -/
theorem shareableCodeToMnemonic_checksum_mismatch (env : Env) (c : Str)
    (hlen : c.length = 78) (hhex : isHex c = true)
    (hne : c.drop 70 ≠ (env.sha256 (c.take 70)).take 8) :
    shareableCodeToMnemonic env c = .error Err.checksumMismatch := by
  have hck : validateShareableCodeChecksum env.sha256 c = .error Err.checksumMismatch := by
    unfold validateShareableCodeChecksum
    have h2 : (env.sha256 (c.take 70)).take CHECKSUM_HEX_LENGTH ≠ c.drop 70 :=
      fun h => hne h.symm
    simp [hlen, hhex, h2, throw, throwThe, MonadExceptOf.throw]
  unfold shareableCodeToMnemonic
  simp only [hck, bind, Except.bind]

/-- C9, at a concrete input: the code `demoCodeEn` with its last character
replaced. -/
theorem shareableCodeToMnemonic_checksum_mismatch_witness :
    (demoCodeEn.take 77 ++ ['4']).length = 78 ∧ isHex (demoCodeEn.take 77 ++ ['4']) = true ∧
      (demoCodeEn.take 77 ++ ['4']).drop 70
        ≠ (demoEnv.sha256 ((demoCodeEn.take 77 ++ ['4']).take 70)).take 8 ∧
      shareableCodeToMnemonic demoEnv (demoCodeEn.take 77 ++ ['4'])
        = .error Err.checksumMismatch :=
  ⟨by decide, by decide, by decide,
    shareableCodeToMnemonic_checksum_mismatch demoEnv (demoCodeEn.take 77 ++ ['4'])
      (by decide) (by decide) (by decide)⟩

/-- C10: for a wordlist name without an entry in the wordlist code table,
`mnemonicToShareableCode` never returns a record, and, for a mnemonic and a
version name accepted by the two validators that run before, the error it
raises is the invalid-wordlist-name error. -/
theorem mnemonicToShareableCode_unknown_wordlistName (env : Env) (m v w : Str)
    (habs : lodashGet env.wordlistCodes (some w) = none) :
    (∀ code, mnemonicToShareableCode env m v w ≠ .ok code) ∧
      (env.validateMnemonic m = .ok () → env.validateVersionName v = .ok () →
        mnemonicToShareableCode env m v w = .error Err.invalidWordlistName) := by
  have hv : validateWordlistName env.wordlistCodes w = .error Err.invalidWordlistName := by
    unfold validateWordlistName
    simp [habs, throw, throwThe, MonadExceptOf.throw]
  constructor
  · intro code h
    obtain ⟨e, -, -, h3, -, -⟩ := mnemonicToShareableCode_ok h
    rw [hv] at h3
    cases h3
  · intro h1 h2
    unfold mnemonicToShareableCode
    simp only [h1, h2, hv, bind, Except.bind]

/-- C10, at a concrete input: the name `korean`, which the code table of the
concrete environment does not hold. -/
theorem mnemonicToShareableCode_unknown_wordlistName_witness :
    lodashGet demoEnv.wordlistCodes (some "korean".toList) = none ∧
      (∀ code, mnemonicToShareableCode demoEnv demoMnemonicEn "v1".toList "korean".toList
        ≠ .ok code) ∧
      mnemonicToShareableCode demoEnv demoMnemonicEn "v1".toList "korean".toList
        = .error Err.invalidWordlistName :=
  ⟨by decide,
    (mnemonicToShareableCode_unknown_wordlistName demoEnv demoMnemonicEn "v1".toList
      "korean".toList (by decide)).1,
    (mnemonicToShareableCode_unknown_wordlistName demoEnv demoMnemonicEn "v1".toList
      "korean".toList (by decide)).2 (by decide) (by decide)⟩


/-- C11, as stated, fails: `v7` has no entry in the version code table, the
mnemonic and the wordlist name are valid, and with a validator of version
names that rejects the names without an entry the call does not succeed: the
validation of line 32 raises before the default of line 38 is reached. -/
theorem unknown_versionName_may_be_rejected :
    lodashGet strictEnv.versionCodes (some "v7".toList) = none ∧
      strictEnv.validateMnemonic demoMnemonicEn = .ok () ∧
      mnemonicToEntropy strictEnv demoMnemonicEn "english".toList
        = .ok (List.replicate 32 '1') ∧
      mnemonicToShareableCode strictEnv demoMnemonicEn "v7".toList "english".toList
        = .error Err.invalidVersionName := by
  decide

/-- C11, amended: for a mnemonic accepted by its validator and a wordlist name
under which it converts, `mnemonicToShareableCode` fails with the error of
`validateVersionName` when that validator rejects the version name, and
succeeds when it accepts it; the first two characters of the result are then
`00` when the version name is a plain key without an entry in the version
code table, and the code of the table when the table has an entry for it. -/
theorem mnemonicToShareableCode_versionField (env : Env) (htab : TablesWellFormed env)
    (m v w e : Str) (h1 : env.validateMnemonic m = .ok ())
    (he : mnemonicToEntropy env m w = .ok e) :
    (∀ err, env.validateVersionName v = .error err →
        mnemonicToShareableCode env m v w = .error err) ∧
      (env.validateVersionName v = .ok () →
        ∃ code, mnemonicToShareableCode env m v w = .ok code ∧
          (plainKey v = true → lodashGet env.versionCodes (some v) = none →
            code.take 2 = "00".toList) ∧
          (∀ versionCode, lodashGet env.versionCodes (some v) = some versionCode →
            code.take 2 = versionCode)) := by
  constructor
  · intro err herr
    unfold mnemonicToShareableCode
    simp only [h1, herr, bind, Except.bind]
  · intro h2
    refine ⟨_, mnemonicToShareableCode_of_ok h1 h2 he, ?_, ?_⟩
    · intro _ hnone
      have hv : lodashGetD env.versionCodes v "00".toList = "00".toList := by
        simp [lodashGetD, hnone]
      unfold rawShareableCodeOf
      rw [hv]
      simp only [List.append_assoc]
      exact List.take_left' rfl
    · intro versionCode hsome
      have hv : lodashGetD env.versionCodes v "00".toList = versionCode := by
        simp [lodashGetD, hsome]
      unfold rawShareableCodeOf
      rw [hv]
      simp only [List.append_assoc]
      exact List.take_left' (length_of_lodashGet htab.2 hsome)

/-- C11 amended, at concrete inputs: the version name `v7`, without an entry,
accepted in the concrete environment and rejected by the stricter validator,
and the name `v1`, which the table maps to `01`. -/
theorem mnemonicToShareableCode_versionField_witness :
    lodashGet demoEnv.versionCodes (some "v7".toList) = none ∧
      (∃ code, mnemonicToShareableCode demoEnv demoMnemonicEn "v7".toList "english".toList
          = .ok code ∧ code.take 2 = "00".toList) ∧
      mnemonicToShareableCode strictEnv demoMnemonicEn "v7".toList "english".toList
        = .error Err.invalidVersionName ∧
      lodashGet demoEnv.versionCodes (some "v1".toList) = some "01".toList ∧
      (∃ code, mnemonicToShareableCode demoEnv demoMnemonicEn "v1".toList "english".toList
          = .ok code ∧ code.take 2 = "01".toList) := by
  refine ⟨by decide, ?_, ?_, by decide, ?_⟩
  · obtain ⟨code, hc, h0, -⟩ := (mnemonicToShareableCode_versionField demoEnv
      demoEnv_tablesWellFormed demoMnemonicEn "v7".toList "english".toList
      (List.replicate 32 '1') (by decide) (by decide)).2 (by decide)
    exact ⟨code, hc, h0 (by decide) (by decide)⟩
  · exact (mnemonicToShareableCode_versionField strictEnv
      (by unfold TablesWellFormed strictEnv demoEnv; decide) demoMnemonicEn "v7".toList
      "english".toList (List.replicate 32 '1') (by decide) (by decide)).1
      Err.invalidVersionName (by decide)
  · obtain ⟨code, hc, -, h1⟩ := (mnemonicToShareableCode_versionField demoEnv
      demoEnv_tablesWellFormed demoMnemonicEn "v1".toList "english".toList
      (List.replicate 32 '1') (by decide) (by decide)).2 (by decide)
    exact ⟨code, hc, h1 _ (by decide)⟩

/-- C15: a share list rejected by the share-list validation makes
`shareListToMnemonic` raise the error of the validation, and not return
`null`; and whenever `shareListToMnemonic` returns `null`, the validation has
accepted the list, the reconstruction has returned a candidate, and the
decoding of that candidate has failed. -/
theorem shareListToMnemonic_validation_error (env : Env) (shareList : List Share) (err : Err)
    (h : env.validateShareList shareList = .error err) :
    shareListToMnemonic env shareList = .error err ∧
      shareListToMnemonic env shareList ≠ .ok none ∧
      ∀ l, shareListToMnemonic env l = .ok none →
        env.validateShareList l = .ok () ∧
        ∃ c, env.secrets.combine l = .ok c ∧ ∃ e, shareableCodeToMnemonic env c = .error e := by
  have hraise : shareListToMnemonic env shareList = .error err := by
    unfold shareListToMnemonic
    simp only [h, bind, Except.bind]
  refine ⟨hraise, by rw [hraise]; simp, ?_⟩
  intro l hl
  unfold shareListToMnemonic at hl
  cases hv : env.validateShareList l with
  | error e => simp [hv, bind, Except.bind] at hl
  | ok u =>
    cases hc : env.secrets.combine l with
    | error e => simp [hv, hc, bind, Except.bind] at hl
    | ok c =>
      cases hd : shareableCodeToMnemonic env c with
      | error e => exact ⟨rfl, c, rfl, e, hd⟩
      | ok m => simp [hv, hc, hd, bind, Except.bind, pure, Except.pure] at hl

/-- C15, at a concrete input: the empty list, which the validator of the
concrete environment rejects. -/
theorem shareListToMnemonic_validation_error_witness :
    demoEnv.validateShareList [] = .error Err.invalidShareList ∧
      shareListToMnemonic demoEnv [] = .error Err.invalidShareList ∧
      shareListToMnemonic demoEnv [] ≠ .ok none :=
  ⟨by decide,
    (shareListToMnemonic_validation_error demoEnv [] Err.invalidShareList (by decide)).1,
    (shareListToMnemonic_validation_error demoEnv [] Err.invalidShareList (by decide)).2.1⟩

/-- The length field of a code is read from its characters 2-69. -/
theorem lengthField_of_middle (c : Str) :
    (c.drop 4).take 2 = (((c.drop 2).take 68).drop 2).take 2 := by
  rw [List.drop_take, List.drop_drop, List.take_take]
  rfl

/-- The padded entropy of a code is read from its characters 2-69. -/
theorem paddedField_of_middle (c : Str) :
    (c.drop 6).take 64 = (((c.drop 2).take 68).drop 4).take 64 := by
  rw [List.drop_take, List.drop_drop, List.take_take]
  rfl

/-- The wordlist field of a code is read from its characters 2-69. -/
theorem wordlistField_of_middle (c : Str) :
    (c.drop 2).take 2 = ((c.drop 2).take 68).take 2 := by
  rw [List.take_take]
  rfl

/-- C16: two shareable codes that both carry a correct checksum and agree on
their characters 2-69 (wordlist, length and padded entropy) are decoded
alike by `shareableCodeToMnemonic`, whatever their version fields: the same
mnemonic for both, or the same failure for both. -/
theorem shareableCodeToMnemonic_ignores_version (env : Env) (c1 c2 : Str)
    (h1 : validateShareableCodeChecksum env.sha256 c1 = .ok ())
    (h2 : validateShareableCodeChecksum env.sha256 c2 = .ok ())
    (hagree : (c1.drop 2).take 68 = (c2.drop 2).take 68) :
    shareableCodeToMnemonic env c1 = shareableCodeToMnemonic env c2 := by
  have he : extractEntropyHex c1 = extractEntropyHex c2 := by
    unfold extractEntropyHex ENTROPY_LENGTH_PADDED_HEX ENTROPY_PADDED_LENGTH
    rw [lengthField_of_middle c1, lengthField_of_middle c2, paddedField_of_middle c1,
      paddedField_of_middle c2, hagree]
  have hw : extractWordlistCode c1 = extractWordlistCode c2 := by
    unfold extractWordlistCode
    rw [wordlistField_of_middle c1, wordlistField_of_middle c2, hagree]
  unfold shareableCodeToMnemonic
  rw [h1, h2, he, hw]

/-- C16, at a concrete input: two codes with the version fields `01` and `02`
and the same other fields, each with its own correct checksum. -/
theorem shareableCodeToMnemonic_ignores_version_witness :
    demoCodeEn64.take 2 ≠ demoCodeEn64V2.take 2 ∧
      shareableCodeToMnemonic demoEnv demoCodeEn64 = .ok demoMnemonicEn64 ∧
      shareableCodeToMnemonic demoEnv demoCodeEn64
        = shareableCodeToMnemonic demoEnv demoCodeEn64V2 :=
  ⟨by decide, by decide,
    shareableCodeToMnemonic_ignores_version demoEnv demoCodeEn64 demoCodeEn64V2
      (by decide) (by decide) (by decide)⟩


/-- An assignment under an identifier the object does not hold adds an entry
at the end. -/
theorem objectSet_of_not_mem (object : List (Nat × Share)) (id : Nat) (rawShare : Share)
    (h : id ∉ object.map Prod.fst) : objectSet object id rawShare = object ++ [(id, rawShare)] := by
  induction object with
  | nil => rfl
  | cons kv rest ih =>
    obtain ⟨k, v⟩ := kv
    simp only [List.map_cons, List.mem_cons, not_or] at h
    unfold objectSet
    rw [if_neg (fun hk => h.1 hk.symm), ih h.2]
    rfl

/-- The loop of lines 53-57 on shares with distinct identifiers, none of them
in the object yet: every share is added under its identifier, in order. -/
theorem foldl_objectSet (ident : Share → Nat) (rawShares : List Share) :
    ∀ object : List (Nat × Share), (rawShares.map ident).Nodup →
      (∀ s ∈ rawShares, ident s ∉ object.map Prod.fst) →
      rawShares.foldl (fun o s => objectSet o (ident s) s) object
        = object ++ rawShares.map (fun s => (ident s, s)) := by
  induction rawShares with
  | nil => intro object _ _; simp
  | cons s rest ih =>
    intro object hnd hfresh
    rw [List.map_cons, List.nodup_cons] at hnd
    rw [List.foldl_cons, objectSet_of_not_mem object (ident s) s (hfresh s (List.mem_cons_self s rest)),
      ih _ hnd.2]
    · simp
    · intro x hx
      simp only [List.map_append, List.map_cons, List.map_nil, List.mem_append, List.mem_singleton,
        not_or]
      refine ⟨hfresh x (List.mem_cons_of_mem s hx), ?_⟩
      intro hxs
      exact hnd.1 (hxs ▸ List.mem_map_of_mem ident hx)

/-- A list of `n` distinct numbers between 1 and `n` holds every number
between 1 and `n`. -/
theorem mem_of_nodup_range (ids : List Nat) (n : Nat) (hlen : ids.length = n)
    (hnd : ids.Nodup) (hrange : ∀ k ∈ ids, 1 ≤ k ∧ k ≤ n) (k : Nat) (hk : 1 ≤ k ∧ k ≤ n) :
    k ∈ ids := by
  have hsub : ids.toFinset ⊆ Finset.Icc 1 n := by
    intro x hx
    rw [List.mem_toFinset] at hx
    rw [Finset.mem_Icc]
    exact hrange x hx
  have hcard : (Finset.Icc 1 n).card ≤ ids.toFinset.card := by
    rw [List.toFinset_card_of_nodup hnd, hlen, Nat.card_Icc]
    omega
  have heq := Finset.eq_of_subset_of_card_le hsub hcard
  have : k ∈ ids.toFinset := by
    rw [heq, Finset.mem_Icc]
    exact hk
  exact List.mem_toFinset.mp this

/-- Lines 44-59 once the shareable code is built and the two counts are
accepted: the result is that of the primitive, folded into the mapping. -/
theorem mnemonicToShares_of_valid {env : Env} {m v w code : Str} {n t : Nat}
    (hcode : mnemonicToShareableCode env m v w = .ok code)
    (hn : env.validateShareCount n = .ok ()) (ht : env.validateThreshold t = .ok ()) :
    mnemonicToShares env m n t v w
      = (env.secrets.share code n t 0).map fun rawShares =>
          rawShares.foldl (fun shareIDToShare rawShare =>
            objectSet shareIDToShare (env.secrets.extractShareComponentsId rawShare) rawShare) [] := by
  obtain ⟨e, h1, h2, h3, -, -⟩ := mnemonicToShareableCode_ok hcode
  unfold mnemonicToShares
  simp only [h1, h2, h3, hn, ht, hcode, bind, Except.bind, pure, Except.pure, Except.map]

/-- C13: for a valid input to `mnemonicToShares` (the shareable code is built
and the two counts are accepted), when the primitive returns `shareCount`
shares whose embedded identifiers are distinct and lie between 1 and
`shareCount`, the returned mapping has exactly `shareCount` entries, its keys
are distinct and are exactly the numbers 1 to `shareCount`, every key maps to
a share whose embedded identifier is that key, and its values are the shares
the primitive returned, each once and unchanged. -/
theorem mnemonicToShares_mapping (env : Env) (m v w code : Str) (n t : Nat)
    (rawShares : List Share)
    (hcode : mnemonicToShareableCode env m v w = .ok code)
    (hn : env.validateShareCount n = .ok ()) (ht : env.validateThreshold t = .ok ())
    (hshare : env.secrets.share code n t 0 = .ok rawShares)
    (hlen : rawShares.length = n)
    (hnodup : (rawShares.map env.secrets.extractShareComponentsId).Nodup)
    (hrange : ∀ s ∈ rawShares, 1 ≤ env.secrets.extractShareComponentsId s ∧
      env.secrets.extractShareComponentsId s ≤ n) :
    ∃ shares, mnemonicToShares env m n t v w = .ok shares ∧
      shares.length = n ∧
      (shares.map Prod.fst).Nodup ∧
      (∀ k, k ∈ shares.map Prod.fst ↔ 1 ≤ k ∧ k ≤ n) ∧
      (∀ kv ∈ shares, env.secrets.extractShareComponentsId kv.2 = kv.1) ∧
      shares.map Prod.snd = rawShares := by
  have hfold := foldl_objectSet env.secrets.extractShareComponentsId rawShares [] hnodup
    (by simp)
  rw [List.nil_append] at hfold
  refine ⟨rawShares.map fun s => (env.secrets.extractShareComponentsId s, s), ?_, ?_, ?_, ?_,
    ?_, ?_⟩
  · rw [mnemonicToShares_of_valid hcode hn ht, hshare]
    simp only [Except.map]
    rw [hfold]
  · simp [hlen]
  · simpa [List.map_map, Function.comp_def] using hnodup
  · intro k
    have hkeys : (rawShares.map fun s => (env.secrets.extractShareComponentsId s, s)).map Prod.fst
        = rawShares.map env.secrets.extractShareComponentsId := by
      simp [List.map_map, Function.comp_def]
    rw [hkeys]
    constructor
    · intro hk
      rw [List.mem_map] at hk
      obtain ⟨s, hs, rfl⟩ := hk
      exact hrange s hs
    · intro hk
      exact mem_of_nodup_range _ n (by simp [hlen]) hnodup
        (by
          intro x hx
          rw [List.mem_map] at hx
          obtain ⟨s, hs, rfl⟩ := hx
          exact hrange s hs) k hk
  · intro kv hkv
    rw [List.mem_map] at hkv
    obtain ⟨s, -, rfl⟩ := hkv
    rfl
  · simp [List.map_map, Function.comp_def]

/-- C13, at a concrete input: three shares with threshold two in the concrete
environment. -/
theorem mnemonicToShares_mapping_witness :
    ∃ shares, mnemonicToShares demoEnv demoMnemonicEn64 3 2 "v1".toList "english".toList
        = .ok shares ∧
      shares.length = 3 ∧
      (shares.map Prod.fst).Nodup ∧
      (∀ k, k ∈ shares.map Prod.fst ↔ 1 ≤ k ∧ k ≤ 3) ∧
      (∀ kv ∈ shares, demoEnv.secrets.extractShareComponentsId kv.2 = kv.1) ∧
      shares.map Prod.snd = ["12".toList ++ demoCodeEn64, "22".toList ++ demoCodeEn64,
        "32".toList ++ demoCodeEn64] :=
  mnemonicToShares_mapping demoEnv demoMnemonicEn64 "v1".toList "english".toList demoCodeEn64
    3 2 ["12".toList ++ demoCodeEn64, "22".toList ++ demoCodeEn64, "32".toList ++ demoCodeEn64]
    (by decide) (by decide) (by decide) (by decide) (by decide) (by decide) (by decide)


/-- C12, as stated, fails: in the concrete environment the share count 2 and
the threshold 3 are each accepted by their validator, the shareable code is
built, and the call with threshold 3 above share count 2 reaches the
primitive: the error it ends with is the one thrown inside the primitive, and
with a primitive that accepts the call the shareable code is handed over and
the call succeeds. -/
theorem threshold_above_shareCount_reaches_primitive :
    demoEnv.validateShareCount 2 = .ok () ∧ demoEnv.validateThreshold 3 = .ok () ∧
      mnemonicToShareableCode demoEnv demoMnemonicEn64 "v1".toList "english".toList
        = .ok demoCodeEn64 ∧
      demoEnv.secrets.share demoCodeEn64 2 3 0 = .error (Err.library 0) ∧
      mnemonicToShares demoEnv demoMnemonicEn64 2 3 "v1".toList "english".toList
        = .error (Err.library 0) ∧
      mnemonicToShares
          { demoEnv with secrets := { demoSecrets with share := fun s _ _ _ => .ok [s] } }
          demoMnemonicEn64 2 3 "v1".toList "english".toList
        = .ok [(0, demoCodeEn64)] := by
  decide

/-- C12, amended: for a mnemonic, version name and wordlist name from which
the shareable code is built, `mnemonicToShares` fails in its own validation,
whatever the primitive is, when `validateShareCount` rejects the share count
or `validateThreshold` rejects the threshold, each looking at its own
argument only; when both accept, whatever the order of the two numbers, the
shareable code is handed to the primitive with those counts and the outcome
of the call is the outcome of the primitive. -/
theorem mnemonicToShares_validation (env : Env) (m v w code : Str) (n t : Nat)
    (hcode : mnemonicToShareableCode env m v w = .ok code) :
    (∀ e, env.validateShareCount n = .error e →
        ∀ secrets, mnemonicToShares { env with secrets := secrets } m n t v w = .error e) ∧
      (∀ e, env.validateShareCount n = .ok () → env.validateThreshold t = .error e →
        ∀ secrets, mnemonicToShares { env with secrets := secrets } m n t v w = .error e) ∧
      (env.validateShareCount n = .ok () → env.validateThreshold t = .ok () →
        mnemonicToShares env m n t v w
          = (env.secrets.share code n t 0).map fun rawShares =>
              rawShares.foldl (fun shareIDToShare rawShare =>
                objectSet shareIDToShare (env.secrets.extractShareComponentsId rawShare)
                  rawShare) []) := by
  obtain ⟨e, h1, h2, h3, -, -⟩ := mnemonicToShareableCode_ok hcode
  refine ⟨?_, ?_, fun hn ht => mnemonicToShares_of_valid hcode hn ht⟩
  · intro err hn secrets
    unfold mnemonicToShares
    simp only [h1, h2, h3, hn, bind, Except.bind]
  · intro err hn ht secrets
    unfold mnemonicToShares
    simp only [h1, h2, h3, hn, ht, bind, Except.bind]

/-- C12 amended, at a concrete input: share count 1 is rejected before the
primitive is reached, and share count 2 with threshold 3 reaches it. -/
theorem mnemonicToShares_validation_witness :
    (∀ secrets, mnemonicToShares { demoEnv with secrets := secrets } demoMnemonicEn64 1 3
        "v1".toList "english".toList = .error Err.invalidShareCount) ∧
      mnemonicToShares demoEnv demoMnemonicEn64 2 3 "v1".toList "english".toList
        = (demoEnv.secrets.share demoCodeEn64 2 3 0).map fun rawShares =>
            rawShares.foldl (fun shareIDToShare rawShare =>
              objectSet shareIDToShare (demoEnv.secrets.extractShareComponentsId rawShare)
                rawShare) [] :=
  ⟨(mnemonicToShares_validation demoEnv demoMnemonicEn64 "v1".toList "english".toList
      demoCodeEn64 1 3 (by decide)).1 Err.invalidShareCount (by decide),
    (mnemonicToShares_validation demoEnv demoMnemonicEn64 "v1".toList "english".toList
      demoCodeEn64 2 3 (by decide)).2.2 (by decide) (by decide)⟩

/-- C14, as stated, fails: with the two-out-of-two sharing, in the execution
where the pad drawn is itself a valid shareable code, the split of
`demoMnemonicEn64` succeeds, the two shares together give the mnemonic back,
and the first share alone, one share being fewer than the threshold of two,
is decoded to another mnemonic: the result is not `null`. -/
theorem insufficient_shares_may_decode :
    mnemonicToShares padEnv demoMnemonicEn64 2 2 "v1".toList "english".toList
        = .ok [(1, '1' :: demoCodePad), (2, '2' :: hexSub demoCodeEn64 demoCodePad)] ∧
      shareListToMnemonic padEnv ['1' :: demoCodePad, '2' :: hexSub demoCodeEn64 demoCodePad]
        = .ok (some demoMnemonicEn64) ∧
      shareListToMnemonic padEnv ['1' :: demoCodePad] = .ok (some demoMnemonicPad) ∧
      shareListToMnemonic padEnv ['1' :: demoCodePad] ≠ .ok none := by
  decide

/-- C14, amended: for a share list the validation accepts, in particular one
of fewer than threshold shares of a split, from which the primitive
reconstructs a candidate, `shareListToMnemonic` returns `null` if and only if
`shareableCodeToMnemonic` fails on the candidate; it does so whenever the
candidate is not a string of 78 hexadecimal characters or its last 8
characters are not the checksum of its first 70; and a candidate that passes
the decoding is returned as the mnemonic it decodes to. -/
theorem shareListToMnemonic_null_of_bad_candidate (env : Env) (shareList : List Share)
    (c : Str) (hv : env.validateShareList shareList = .ok ())
    (hc : env.secrets.combine shareList = .ok c) :
    (shareListToMnemonic env shareList = .ok none ↔
        ∃ e, shareableCodeToMnemonic env c = .error e) ∧
      (c.length ≠ 78 ∨ isHex c = false ∨
          c.drop 70 ≠ (env.sha256 (c.take 70)).take 8 →
        shareListToMnemonic env shareList = .ok none) ∧
      (∀ m, shareableCodeToMnemonic env c = .ok m →
        shareListToMnemonic env shareList = .ok (some m)) := by
  have hsome : ∀ m, shareableCodeToMnemonic env c = .ok m →
      shareListToMnemonic env shareList = .ok (some m) := by
    intro m hm
    unfold shareListToMnemonic
    simp only [hv, hc, hm, bind, Except.bind]
    rfl
  have hiff : shareListToMnemonic env shareList = .ok none ↔
      ∃ e, shareableCodeToMnemonic env c = .error e := by
    unfold shareListToMnemonic
    simp only [hv, hc, bind, Except.bind]
    cases hd : shareableCodeToMnemonic env c with
    | error e => simp [pure, Except.pure]
    | ok m => simp [pure, Except.pure]
  refine ⟨hiff, ?_, hsome⟩
  intro hbad
  rw [hiff]
  have hck : ∃ e, validateShareableCodeChecksum env.sha256 c = .error e := by
    unfold validateShareableCodeChecksum
    by_cases hshape : c.length ≠ 78 ∨ isHex c = false
    · exact ⟨Err.invalidShareableCode, by simp [hshape, throw, throwThe, MonadExceptOf.throw]⟩
    · have hsum : (env.sha256 (c.take 70)).take CHECKSUM_HEX_LENGTH ≠ c.drop 70 := by
        rcases hbad with h | h | h
        · exact absurd (Or.inl h) hshape
        · exact absurd (Or.inr h) hshape
        · exact fun heq => h heq.symm
      exact ⟨Err.checksumMismatch, by
        simp [hshape, hsum, throw, throwThe, MonadExceptOf.throw]⟩
  obtain ⟨e, he⟩ := hck
  refine ⟨e, ?_⟩
  unfold shareableCodeToMnemonic
  simp only [he, bind, Except.bind]

/-- C14 amended, at a concrete input: one share of three with threshold two in
the concrete environment, whose reconstruction gives the empty string. -/
theorem shareListToMnemonic_null_of_bad_candidate_witness :
    demoEnv.secrets.combine ["12".toList ++ demoCodeEn64] = .ok [] ∧
      shareListToMnemonic demoEnv ["12".toList ++ demoCodeEn64] = .ok none :=
  ⟨by decide,
    (shareListToMnemonic_null_of_bad_candidate demoEnv ["12".toList ++ demoCodeEn64] []
      (by decide) (by decide)).2.1 (Or.inl (by decide))⟩


/-- Replacing an element leaves the elements before it as they are. -/
theorem take_set_of_le {α : Type} (l : List α) (a : α) {i k : Nat} (h : k ≤ i) :
    (l.set i a).take k = l.take k := by
  apply List.ext_getElem?
  intro j
  rw [List.getElem?_take, List.getElem?_take]
  split
  · rw [List.getElem?_set_ne (by omega)]
  · rfl

/-- A concatenation consists of hexadecimal digits when both parts do. -/
theorem isHex_append (a b : Str) : isHex (a ++ b) = (isHex a && isHex b) := by
  simp [isHex]

/-- The first characters of a string of hexadecimal digits are hexadecimal
digits. -/
theorem isHex_take (s : Str) (k : Nat) (h : isHex s = true) : isHex (s.take k) = true := by
  unfold isHex at *
  rw [List.all_eq_true] at *
  intro x hx
  exact h x (List.mem_of_mem_take hx)

/-- Zero-filling keeps a string of hexadecimal digits one. -/
theorem isHex_zeroFill (width : Nat) (s : Str) (h : isHex s = true) :
    isHex (zeroFill width s) = true := by
  unfold zeroFill
  split
  · rw [isHex_append, h, Bool.and_true]
    unfold isHex
    rw [List.all_eq_true]
    intro x hx
    rw [List.eq_of_mem_replicate hx]
    decide
  · exact h

/-- The length code of a number below 256 consists of hexadecimal digits. -/
theorem isHex_numberToHexCode : ∀ n, n < 256 →
    isHex (numberToHexCode n ENTROPY_LENGTH_PADDED_HEX true) = true := by
  decide

/-- A value read from a table of hexadecimal codes is hexadecimal. -/
theorem isHex_of_lodashGet {table : List (Str × Str)} {key : Option Str} {v : Str}
    (htab : ∀ kv ∈ table, isHex kv.2 = true) (h : lodashGet table key = some v) :
    isHex v = true := by
  unfold lodashGet at h
  rw [Option.map_eq_some'] at h
  obtain ⟨kv, hkv, rfl⟩ := h
  exact htab kv (List.mem_of_find?_eq_some hkv)

/-- The shape of a code returned by `mnemonicToShareableCode` for an entropy
of hexadecimal digits that fits the padded field: 78 hexadecimal characters,
the last 8 being the checksum of the first 70. -/
theorem mnemonicToShareableCode_shape {env : Env} (hsha : Sha256Shape env)
    (htab : TablesWellFormed env) (hhex : HexEnv env) {m v w e code : Str}
    (he : mnemonicToEntropy env m w = .ok e) (hn : e.length ≤ 64) (hehex : isHex e = true)
    (h : mnemonicToShareableCode env m v w = .ok code) :
    code.length = 78 ∧ isHex code = true ∧
      code.drop 70 = (env.sha256 (code.take 70)).take CHECKSUM_HEX_LENGTH := by
  obtain ⟨e2, -, -, -, he2, hcode⟩ := mnemonicToShareableCode_ok h
  rw [he] at he2
  cases he2
  obtain ⟨wc, hwc⟩ := wordlistCode_of_mnemonicToEntropy he
  have hf := fields_of_append (lodashGetD env.versionCodes v "00".toList) wc
    (numberToHexCode e.length ENTROPY_LENGTH_PADDED_HEX true)
    (zeroFill ENTROPY_PADDED_LENGTH e)
    ((env.sha256 (rawShareableCodeOf env v w e)).take CHECKSUM_HEX_LENGTH)
    (length_lodashGetD v htab.2) (length_of_lodashGet htab.1 hwc)
    (length_numberToHexCode _ (by omega)) (length_zeroFill _ _ hn)
    (by simp [CHECKSUM_HEX_LENGTH, hsha _])
  have hraw : rawShareableCodeOf env v w e = lodashGetD env.versionCodes v "00".toList ++ wc
      ++ numberToHexCode e.length ENTROPY_LENGTH_PADDED_HEX true
      ++ zeroFill ENTROPY_PADDED_LENGTH e := by
    simp [rawShareableCodeOf, hwc, jsToString]
  have hvhex : isHex (lodashGetD env.versionCodes v "00".toList) = true := by
    unfold lodashGetD
    cases hg : lodashGet env.versionCodes (some v) with
    | none => decide
    | some vc => exact isHex_of_lodashGet hhex.2.2 hg
  have hrawhex : isHex (rawShareableCodeOf env v w e) = true := by
    rw [hraw, isHex_append, isHex_append, isHex_append, hvhex,
      isHex_of_lodashGet hhex.2.1 hwc, isHex_numberToHexCode _ (by omega),
      isHex_zeroFill _ _ hehex]
    rfl
  rw [← hraw, ← hcode] at hf
  obtain ⟨f0, -, -, -, -, f5, f6⟩ := hf
  refine ⟨f0, ?_, ?_⟩
  · rw [hcode, isHex_append, hrawhex, isHex_take _ _ (hhex.1 _)]
    rfl
  · rw [f5, f6]

/-- The stand-in digest and the code tables of the concrete environment
consist of hexadecimal digits. -/
theorem demoEnv_hexEnv : HexEnv demoEnv := by
  refine ⟨?_, by unfold demoEnv; decide, by unfold demoEnv; decide⟩
  intro s
  have hdigit : ∀ k, k < 16 → isHexChar (Nat.digitChar k) = true := by decide
  simp only [demoEnv, demoHash, isHex]
  rw [List.all_eq_true]
  intro x hx
  rw [List.eq_of_mem_replicate hx]
  exact hdigit _ (Nat.mod_lt _ (by omega))

/-- C17: for a shareable code `c` returned by `mnemonicToShareableCode` (for
an entropy of 32 to 64 hexadecimal digits, code tables of two-digit
hexadecimal codes and a hash with digests of 64 hexadecimal digits) and a
position `i` from 70 to 77, replacing the character `c[i]` by a hexadecimal
digit of a different value makes `shareableCodeToMnemonic` fail with the
checksum-mismatch error, and makes `shareListToMnemonic` return `null` on
every accepted share list that recombines to the corrupted code. -/
theorem checksumField_corruption_detected (env : Env) (hsha : Sha256Shape env)
    (htab : TablesWellFormed env) (hhex : HexEnv env) (m v w e c : Str)
    (he : mnemonicToEntropy env m w = .ok e) (hlen : e.length ∈ validEntropyHexLengths)
    (hehex : isHex e = true) (h : mnemonicToShareableCode env m v w = .ok c)
    (i : Nat) (hi : 70 ≤ i ∧ i ≤ 77) (d : Char) (hd : isHexChar d = true)
    (hdiff : hexVal? d ≠ hexVal? (c.getD i '0')) :
    shareableCodeToMnemonic env (c.set i d) = .error Err.checksumMismatch ∧
      ∀ shareList, env.validateShareList shareList = .ok () →
        env.secrets.combine shareList = .ok (c.set i d) →
        shareListToMnemonic env shareList = .ok none := by
  have hn : e.length ≤ 64 := by
    simp [validEntropyHexLengths] at hlen
    omega
  obtain ⟨hlen78, hchex, hsum⟩ := mnemonicToShareableCode_shape hsha htab hhex he hn hehex h
  have hne : c.set i d ≠ c := by
    intro heq
    have hget : (c.set i d).getD i '0' = c.getD i '0' := by rw [heq]
    have hnew : (c.set i d).getD i '0' = d := by
      rw [List.getD_eq_getElem?_getD, List.getElem?_set_self (by omega)]
      rfl
    apply hdiff
    rw [← hget, hnew]
  have htake : (c.set i d).take 70 = c.take 70 := take_set_of_le c d hi.1
  have hdrop : (c.set i d).drop 70 ≠ c.drop 70 := by
    intro heq
    apply hne
    rw [← List.take_append_drop 70 (c.set i d), htake, heq, List.take_append_drop]
  have hhex2 : isHex (c.set i d) = true := by
    unfold isHex at *
    rw [List.all_eq_true] at *
    intro x hx
    rcases List.mem_or_eq_of_mem_set hx with hx | rfl
    · exact hchex x hx
    · exact hd
  have hck : validateShareableCodeChecksum env.sha256 (c.set i d)
      = .error Err.checksumMismatch := by
    unfold validateShareableCodeChecksum
    have h2 : (env.sha256 ((c.set i d).take 70)).take CHECKSUM_HEX_LENGTH
        ≠ (c.set i d).drop 70 := by
      rw [htake, ← hsum]
      exact fun heq => hdrop heq.symm
    simp [hlen78, hhex2, h2, throw, throwThe, MonadExceptOf.throw]
  have hdec : shareableCodeToMnemonic env (c.set i d) = .error Err.checksumMismatch := by
    unfold shareableCodeToMnemonic
    simp only [hck, bind, Except.bind]
  refine ⟨hdec, ?_⟩
  intro shareList hv hc
  unfold shareListToMnemonic
  simp only [hv, hc, hdec, bind, Except.bind]
  rfl

/-- C17, at a concrete input: the last character `5` of `demoCodeEn64`
replaced by `6`, and two shares that recombine to the corrupted code. -/
theorem checksumField_corruption_detected_witness :
    mnemonicToShareableCode demoEnv demoMnemonicEn64 "v1".toList "english".toList
        = .ok demoCodeEn64 ∧
      shareableCodeToMnemonic demoEnv (demoCodeEn64.set 77 '6') = .error Err.checksumMismatch ∧
      shareListToMnemonic demoEnv
          ["12".toList ++ demoCodeEn64.set 77 '6', "22".toList ++ demoCodeEn64.set 77 '6']
        = .ok none :=
  ⟨by decide,
    (checksumField_corruption_detected demoEnv demoEnv_sha256Shape demoEnv_tablesWellFormed
      demoEnv_hexEnv demoMnemonicEn64 "v1".toList "english".toList (List.replicate 64 '1')
      demoCodeEn64 (by decide) (by decide) (by decide) (by decide) 77 (by decide) '6'
      (by decide) (by decide)).1,
    (checksumField_corruption_detected demoEnv demoEnv_sha256Shape demoEnv_tablesWellFormed
      demoEnv_hexEnv demoMnemonicEn64 "v1".toList "english".toList (List.replicate 64 '1')
      demoCodeEn64 (by decide) (by decide) (by decide) (by decide) 77 (by decide) '6'
      (by decide) (by decide)).2 _ (by decide) (by decide)⟩

end ShareableSeed
